import Mathlib

/-
Verification of the Zemini audio-rug core: a shallow embedding of the
serial frame decoder (SerialHandler in src/audio-engine.js), the region
aggregator and debouncer plus the recording-trigger state machine
(src/script.js), and the audio routing engine (AudioEngine in
src/audio-engine.js), together with proofs of the specified properties.
-/

set_option maxRecDepth 4000

namespace Zemini

/-! ## Serial frame decoder (SerialHandler.parseSerialData / processIncomingData)

Lines are modelled as lists of characters.  The JavaScript builtins used by
the decoder (String.prototype.split, String.prototype.trim, parseInt,
Math.max, Math.min) are embedded explicitly below. -/

/-- Embedding of JavaScript String.prototype.split with a one-character
separator: splitting the empty string yields one empty token, and
separators at the ends produce empty tokens. -/
def splitOnChar (sep : Char) : List Char → List (List Char)
  | [] => [[]]
  | c :: rest =>
    let r := splitOnChar sep rest
    if c = sep then [] :: r
    else
      match r with
      | [] => [[c]]
      | t :: ts => (c :: t) :: ts

/-- Whitespace characters recognised by the embedding of trim and of
parseInt's leading-whitespace skip. -/
def isJsSpace (c : Char) : Bool :=
  c = ' ' || c = '\t' || c = '\n' || c = '\r'

/-- Embedding of JavaScript String.prototype.trim. -/
def jsTrim (s : List Char) : List Char :=
  ((s.dropWhile isJsSpace).reverse.dropWhile isJsSpace).reverse

/-- Hexadecimal digit test for the parseInt embedding. -/
def isHexChar (c : Char) : Bool :=
  c.isDigit || ('a' ≤ c && c ≤ 'f') || ('A' ≤ c && c ≤ 'F')

/-- Numeric value of a hexadecimal digit. -/
def hexCharVal (c : Char) : Nat :=
  if c.isDigit then c.toNat - 48
  else if 'a' ≤ c && c ≤ 'f' then c.toNat - 87
  else c.toNat - 55

/-- Longest prefix of decimal digits, interpreted base 10; none when the
string does not begin with a digit (parseInt returns NaN there). -/
def parseDecDigits (s : List Char) : Option Nat :=
  let ds := s.takeWhile Char.isDigit
  if ds.isEmpty then none
  else some (ds.foldl (fun a c => a * 10 + (c.toNat - 48)) 0)

/-- Longest prefix of hexadecimal digits, interpreted base 16. -/
def parseHexDigits (s : List Char) : Option Nat :=
  let ds := s.takeWhile isHexChar
  if ds.isEmpty then none
  else some (ds.foldl (fun a c => a * 16 + hexCharVal c) 0)

/-- Magnitude part of parseInt with an undefined radix: a 0x/0X prefix
selects base 16, otherwise base 10. -/
def parseUnsigned (s : List Char) : Option Nat :=
  match s with
  | '0' :: 'x' :: rest => parseHexDigits rest
  | '0' :: 'X' :: rest => parseHexDigits rest
  | _ => parseDecDigits s

/-- Embedding of JavaScript parseInt with an undefined radix: skip leading
whitespace, read an optional sign, then the longest valid digit prefix;
none models a NaN result. -/
def parseIntJS (s : List Char) : Option Int :=
  let t := s.dropWhile isJsSpace
  match t with
  | '-' :: rest => (parseUnsigned rest).map (fun n => -(n : Int))
  | '+' :: rest => (parseUnsigned rest).map (fun n => (n : Int))
  | _ => (parseUnsigned t).map (fun n => (n : Int))

/-- Embedding of Math.max(0, Math.min(255, v)) from parseSerialData. -/
def clampJS (v : Int) : Int :=
  max 0 (min 255 v)

/-- Decoding of one token of a serial line, from parseSerialData:
the token is trimmed, parsed with parseInt (with NaN replaced by 0 via
the logical-or), then clamped into the byte range. -/
def decodeToken (tok : List Char) : Int :=
  let trimmed := jsTrim tok
  let pressure := (parseIntJS trimmed).getD 0
  clampJS pressure

/-- Embedding of SerialHandler.parseSerialData: the line is split on
commas; exactly 100 tokens produce one decoded frame handed to the
observer, any other token count produces no frame. -/
def parseSerialData (line : List Char) : Option (List Int) :=
  let values := splitOnChar ',' line
  if values.length = 100 then some (values.map decodeToken) else none

/-- Frames emitted for a list of complete lines, from the forEach loop of
SerialHandler.processIncomingData: each line is trimmed and, when
nonempty, passed to parseSerialData. -/
def processLines (ls : List (List Char)) : List (List Int) :=
  ls.filterMap (fun l =>
    let t := jsTrim l
    if t.isEmpty then none else parseSerialData t)

/-- Embedding of SerialHandler.processIncomingData: the chunk is appended
to the partial-line buffer, the result is split on newlines, the final
(possibly incomplete) fragment becomes the new buffer, and every complete
line is processed.  Returns the new buffer and the emitted frames. -/
def processIncomingData (readBuffer data : List Char) : List Char × List (List Int) :=
  let buf := readBuffer ++ data
  let lines := splitOnChar '\n' buf
  let newBuffer := (lines.getLast?).getD []
  let complete := lines.dropLast
  (newBuffer, processLines complete)

/-! ## Region aggregator and debouncer (checkGridCellsForPressure in src/script.js)

Each of the nine regions holds a committed pressed state
(gridCellPressureState) and at most one pending debounce timer
(gridCellDebounceTimers).  A pending timer is modelled by the value of
isPressed its callback closed over when it was scheduled; processing a
frame clears any pending timer and schedules a fresh one, and a timer
only fires when no later frame arrived within the debounce window. -/

/-- One of the nine fixed rectangles partitioning the 10x10 sensor grid. -/
structure GridRegion where
  minX : Nat
  maxX : Nat
  minY : Nat
  maxY : Nat
deriving DecidableEq

/-- The gridRegions table of checkGridCellsForPressure: three row bands and
three column bands of widths 3, 3 and 4. -/
def gridRegions : List GridRegion :=
  [⟨0, 2, 0, 2⟩, ⟨3, 5, 0, 2⟩, ⟨6, 9, 0, 2⟩,
   ⟨0, 2, 3, 5⟩, ⟨3, 5, 3, 5⟩, ⟨6, 9, 3, 5⟩,
   ⟨0, 2, 6, 9⟩, ⟨3, 5, 6, 9⟩, ⟨6, 9, 6, 9⟩]

/-- Maximum sensor value inside one region's rectangle, from the nested
loops of checkGridCellsForPressure: the accumulator starts at 0 and the
matrix is addressed row-major as pressureMatrix at y * 10 + x. -/
def regionMax (m : List Int) (r : GridRegion) : Int :=
  (List.range' r.minY (r.maxY + 1 - r.minY)).foldl
    (fun acc y =>
      (List.range' r.minX (r.maxX + 1 - r.minX)).foldl
        (fun acc2 x => max acc2 (m.getD (y * 10 + x) 0)) acc)
    0

/-- Debounce state of a single region: the committed pressed state and the
pending timer, carrying the isPressed value captured when it was
scheduled (none when no timer is pending). -/
structure RegionSt where
  committed : Bool
  pending : Option Bool
deriving DecidableEq

/-- Per-region part of processing one frame: clearTimeout on any pending
timer followed by setTimeout of a fresh evaluation that closes over the
frame's isPressed determination.  The committed state is untouched. -/
def scheduleDebounce (isPressed : Bool) (s : RegionSt) : RegionSt :=
  { s with pending := some isPressed }

/-- The debounce timer callback: it reads the region's committed state at
fire time and, only when the scheduled isPressed value differs from it,
commits the new state and emits the transition event (true for ON, false
for OFF). -/
def fireDebounce (s : RegionSt) : RegionSt × Option Bool :=
  match s.pending with
  | none => (s, none)
  | some ip =>
    if ip && !s.committed then ({ committed := true, pending := none }, some true)
    else if !ip && s.committed then ({ committed := false, pending := none }, some false)
    else ({ s with pending := none }, none)

/-- Timed execution of one region's debouncer over a frame trace.  Each
trace entry is a frame (a 100-value matrix) with the time gap to the next
event; the timer scheduled for the frame fires exactly when the gap
reaches the debounce delay, otherwise the next frame cancels it.
Returns the final state and the emitted transition events in order. -/
def runRegionFrames (threshold : Int) (debounceMs : Nat) (r : GridRegion) :
    RegionSt → List (List Int × Nat) → RegionSt × List Bool
  | s, [] => (s, [])
  | s, (m, gap) :: rest =>
    let s1 := scheduleDebounce (decide (regionMax m r > threshold)) s
    let (s2, ev) := if debounceMs ≤ gap then fireDebounce s1 else (s1, none)
    let (s3, evs) := runRegionFrames threshold debounceMs r s2 rest
    (s3, ev.toList ++ evs)

/-! ## Recording-trigger state machine (src/script.js)

State of handleRecordingPressure, startRecording, stopRecording and the
recording-state reset of switchMode.  The asynchronous engine call of
startRecording is modelled on its success path (a microphone is selected
and the capture starts); cooldown expiry and the UI are outside the
machine.  Times are dropped: cooldown is the boolean isRecordingOnCooldown. -/

/-- The recording state field: idle or recording. -/
inductive RecMode where
  | idle
  | recording
deriving DecidableEq

/-- The fields of the script state driving the recording trigger. -/
structure RecSt where
  recordingState : RecMode
  isRecordingOnCooldown : Bool
  recordingReady : Bool
  lastPressureState : Bool
  micSelected : Bool
  pressureThreshold : Int
deriving DecidableEq

/-- Constructor state of the script: recordingState idle, no cooldown,
recordingReady false (start NOT ready), lastPressureState false,
pressureThreshold 25. -/
def initRecSt (micSelected : Bool) : RecSt :=
  { recordingState := .idle
    isRecordingOnCooldown := false
    recordingReady := false
    lastPressureState := false
    micSelected := micSelected
    pressureThreshold := 25 }

/-- Embedding of startRecording: rejected unless idle and off cooldown and
a microphone is selected; otherwise the state moves to recording (the
engine capture is modelled as succeeding). -/
def startRecordingOp (s : RecSt) : RecSt :=
  if s.recordingState ≠ .idle || s.isRecordingOnCooldown then s
  else if !s.micSelected then s
  else { s with recordingState := .recording }

/-- Embedding of stopRecording: rejected unless recording; otherwise the
state returns to idle, the cooldown starts, and recordingReady is reset
to false so the mat must be seen unpressed before the next trigger. -/
def stopRecordingOp (s : RecSt) : RecSt :=
  if s.recordingState ≠ .recording then s
  else { s with recordingState := .idle
                isRecordingOnCooldown := true
                recordingReady := false }

/-- Embedding of handleRecordingPressure for one frame's total pressure:
the mat is pressed when the total exceeds the threshold; an unpressed mat
arms recordingReady; a rising edge while ready toggles the recording via
startRecording or stopRecording; lastPressureState is updated last. -/
def handleRecordingPressure (s : RecSt) (totalPressure : Int) : RecSt :=
  let isPressed := totalPressure > s.pressureThreshold
  let s1 := if !s.recordingReady && !isPressed
            then { s with recordingReady := true } else s
  let s2 :=
    if isPressed && !s1.lastPressureState && s1.recordingReady then
      if s1.recordingState = .idle && !s1.isRecordingOnCooldown then
        startRecordingOp s1
      else if s1.recordingState = .recording then
        stopRecordingOp s1
      else s1
    else s1
  { s2 with lastPressureState := isPressed }

/-- Recording-state reset of switchMode: any running recording is stopped,
then the machine is forced to idle with no cooldown, recordingReady is
set to true (allow immediate recording when entering the mode) and
lastPressureState is cleared. -/
def switchModeReset (s : RecSt) : RecSt :=
  let s0 := if s.recordingState = .recording then stopRecordingOp s else s
  { s0 with recordingState := .idle
            isRecordingOnCooldown := false
            recordingReady := true
            lastPressureState := false }

/-! ## Audio routing engine (AudioEngine in src/audio-engine.js)

The engine owns the effect registry webAudioEffects (six fixed singleton
effects, each with an activation flag and its parameterised nodes) and
the map activeLoopedSources from grid index to the record stored by
startLoopedSampleWithEffect.  Whether an effect is spliced into the
shared bus (effectsInput to input node, output node to effectsOutput) is
tracked by the connected field; the code connects and disconnects
exactly when it flips the active flag.  Audio nodes are represented by
the numeric parameters the engine reads and writes; the asynchronous
sample decode of startLoopedSampleWithEffect is an explicit decodeOk
input. -/

/-- One entry of webAudioEffects: the activation flag, whether the effect
is currently connected into the shared effects bus, and the numeric
parameters of its nodes keyed by the parameter ids of
setEffectParameter/getEffectParameter. -/
structure EffectUnit where
  active : Bool
  connected : Bool
  params : List (String × ℚ)
deriving DecidableEq

/-- The record stored in activeLoopedSources for a playing voice: the
effect name it was started with (null means dry-only) and its dry and
wet gain values.  The buffer source itself carries no further state the
claims depend on. -/
structure Voice where
  effectName : Option String
  dryGain : ℚ
  wetGain : ℚ
deriving DecidableEq

/-- Engine state: the effect registry and the looped-source map, the
latter as an association list in insertion order with integer grid keys
(the deprecated path uses -1). -/
structure Engine where
  fx : String → Option EffectUnit
  sources : List (Int × Voice)

/-- The six effect names created by createWebAudioEffects. -/
def knownEffects : List String :=
  ["pitchshifter", "ringmod", "freezer", "vibrato", "filterdelay", "octaver"]

/-- Initial node parameter values per effect, from createEffectNodes. -/
def defaultParams (effectName : String) : List (String × ℚ) :=
  if effectName = "pitchshifter" then
    [("delay1", 0.015), ("delay2", 0.12), ("feedback1", 0.6),
     ("feedback2", 0.5), ("output", 1.2)]
  else if effectName = "ringmod" then
    [("frequency", 30), ("depth", 0), ("output", 0.5)]
  else if effectName = "freezer" then
    [("output", 0.8)]
  else if effectName = "vibrato" then
    [("rate", 5), ("depth", 0.005), ("output", 1.0)]
  else if effectName = "filterdelay" then
    [("frequency", 2000), ("delayTime", 0.2), ("feedback", 0.3), ("output", 0.8)]
  else if effectName = "octaver" then
    [("frequency", 1000), ("output", 0.8)]
  else []

/-- Engine state after the constructor and createWebAudioEffects: the six
effects exist, inactive and disconnected, with default parameters; no
looped sources play. -/
def initialEngine : Engine :=
  { fx := fun n =>
      if n ∈ knownEffects then
        some { active := false, connected := false, params := defaultParams n }
      else none
    sources := [] }

/-- Association lookup on the looped-source map (Map.prototype.get). -/
def lookupSrc : List (Int × Voice) → Int → Option Voice
  | [], _ => none
  | (k, v) :: rest, g => if k = g then some v else lookupSrc rest g

/-- Association update on the looped-source map (Map.prototype.set):
replace an existing entry in place or append a new one. -/
def setSrc : List (Int × Voice) → Int → Voice → List (Int × Voice)
  | [], g, v => [(g, v)]
  | (k, w) :: rest, g, v =>
    if k = g then (g, v) :: rest else (k, w) :: setSrc rest g v

/-- Association removal on the looped-source map (Map.prototype.delete). -/
def eraseSrc (l : List (Int × Voice)) (g : Int) : List (Int × Voice) :=
  l.filter (fun p => p.1 ≠ g)

/-- Entries of a looped-source map referencing a given effect name. -/
def countEff (l : List (Int × Voice)) (effectName : Option String) : Nat :=
  (l.filter (fun p => p.2.effectName = effectName)).length

/-- The count computed by stopLoopedSampleWithEffect: how many entries of
activeLoopedSources reference the given effect name (the stopped voice
itself included, since it is counted before deletion). -/
def usingCount (e : Engine) (effectName : Option String) : Nat :=
  countEff e.sources effectName

/-- Embedding of AudioEngine.applyEffect.  A null or unknown effect name
finds no registry entry and returns false without touching anything.
Activating an inactive effect splices it into the shared bus and sets
its flag; deactivating an active one disconnects it and clears the flag;
otherwise nothing changes and the call still reports success.  Every
registered effect owns its input and output nodes (createEffectNodes
builds both for each of the six kinds), so the missing-node branch of
the source is unreachable. -/
def applyEffect (e : Engine) (effectName : Option String) (isActive : Bool) :
    Engine × Bool :=
  match effectName with
  | none => (e, false)
  | some name =>
    match e.fx name with
    | none => (e, false)
    | some u =>
      if isActive && !u.active then
        ({ e with fx := fun n =>
            if n = name then some { u with active := true, connected := true }
            else e.fx n }, true)
      else if !isActive && u.active then
        ({ e with fx := fun n =>
            if n = name then some { u with active := false, connected := false }
            else e.fx n }, true)
      else (e, true)

/-- Embedding of AudioEngine.isEffectActive. -/
def isEffectActive (e : Engine) (effectName : String) : Bool :=
  match e.fx effectName with
  | some u => u.active
  | none => false

/-- Embedding of AudioEngine.stopLoopedSampleWithEffect: a grid index with
no registered voice is a no-op; otherwise the voice's nodes are stopped
and disconnected, the entries still referencing its effect name are
counted (the entry about to be deleted included), the effect is
deactivated only when no other source uses it, and the entry is removed
from the map. -/
def stopLoopedSampleWithEffect (e : Engine) (gridIndex : Int) : Engine :=
  match lookupSrc e.sources gridIndex with
  | none => e
  | some v =>
    let othersUsingEffect := usingCount e v.effectName
    let e1 := if othersUsingEffect ≤ 1 then (applyEffect e v.effectName false).1 else e
    { e1 with sources := eraseSrc e1.sources gridIndex }

/-- Embedding of AudioEngine.startLoopedSampleWithEffect: any existing
voice for the grid index is torn down first; a decode failure lands in
the catch block, which deactivates the requested effect when one was
named and reports failure; otherwise the playback chain is built with a
100/0 dry/wet split when no effect is requested and a 30/70 split when
the named effect activates (falling back to 100/0 when activation
fails), and the voice record is stored under the grid index. -/
def startLoopedSampleWithEffect (e : Engine) (gridIndex : Int) (decodeOk : Bool)
    (effectName : Option String) (_volume : ℚ) : Engine × Bool :=
  let e0 := if (lookupSrc e.sources gridIndex).isSome
            then stopLoopedSampleWithEffect e gridIndex else e
  if !decodeOk then
    match effectName with
    | some _ => ((applyEffect e0 effectName false).1, false)
    | none => (e0, false)
  else
    match effectName with
    | none =>
      ({ e0 with sources := setSrc e0.sources gridIndex ⟨none, 1.0, 0.0⟩ }, true)
    | some en =>
      let res := applyEffect e0 (some en) true
      let v : Voice := if res.2 then ⟨some en, 0.3, 0.7⟩ else ⟨some en, 1.0, 0.0⟩
      ({ res.1 with sources := setSrc res.1.sources gridIndex v }, true)

/-- Association lookup on an effect's parameter list. -/
def getParam : List (String × ℚ) → String → Option ℚ
  | [], _ => none
  | (k, x) :: rest, pid => if k = pid then some x else getParam rest pid

/-- Association update on an effect's parameter list: only a recognised
parameter id (a key already present) is written, as each branch of the
source guards on its own parameter ids. -/
def setParam : List (String × ℚ) → String → ℚ → List (String × ℚ)
  | [], _, _ => []
  | (k, x) :: rest, pid, v =>
    if k = pid then (k, v) :: setParam rest pid v
    else (k, x) :: setParam rest pid v

/-- Embedding of AudioEngine.setEffectParameter: an unknown effect name
returns false; for a known effect the branch matching the parameter id
writes the value to its node (no range validation) and the function
returns true whether or not any branch matched. -/
def setEffectParameter (e : Engine) (effectName paramId : String) (value : ℚ) :
    Engine × Bool :=
  match e.fx effectName with
  | none => (e, false)
  | some u =>
    ({ e with fx := fun n =>
        if n = effectName then some { u with params := setParam u.params paramId value }
        else e.fx n }, true)

/-- Embedding of AudioEngine.getEffectParameter: an unknown effect name or
an unrecognised parameter id falls through to 0, and a recognised
parameter id reads the node's current value. -/
def getEffectParameter (e : Engine) (effectName paramId : String) : ℚ :=
  match e.fx effectName with
  | none => 0
  | some u => (getParam u.params paramId).getD 0

/-- Successful engine operations driving the looped-voice lifecycle: a
start whose sample decodes (with the requested effect name) or a stop. -/
inductive EngOp where
  | start (gridIndex : Int) (effectName : Option String)
  | stop (gridIndex : Int)

/-- The grid index an operation acts on. -/
def EngOp.key : EngOp → Int
  | .start g _ => g
  | .stop g => g

/-- Effect of one lifecycle operation on the engine. -/
def applyEngOp (e : Engine) : EngOp → Engine
  | .start g en => (startLoopedSampleWithEffect e g true en 1).1
  | .stop g => stopLoopedSampleWithEffect e g

/-- Engine state after a sequence of lifecycle operations. -/
def runOps (e : Engine) (ops : List EngOp) : Engine :=
  ops.foldl applyEngOp e

/-- Well-formedness of an engine state: the looped-source map has distinct
keys, registered effects are exactly the six created ones, and every
registered effect's activation flag equals (reference count over the
registered voices is positive) with its bus connection matching the
flag. -/
def EngineWF (e : Engine) : Prop :=
  (e.sources.map Prod.fst).Nodup ∧
  (∀ n, (e.fx n).isSome = true ↔ n ∈ knownEffects) ∧
  (∀ n u, e.fx n = some u →
    ((u.active = true ↔ 0 < usingCount e (some n)) ∧ u.connected = u.active))

/-! ## Performance session recorder (C8)

startPerformanceRecording taps the master bus into a fresh
MediaStream destination with its own MediaRecorder and remembers only
the newest recorder; stopPerformanceRecording stops that newest recorder
when it is still recording.  The script wraps these behind the
isPerformanceRecording flag, and its toggle is the sole caller of the
start path (the button handler invokes togglePerformanceRecording). -/

/-- Master-capture state of the engine: how many recorders currently
capture the master bus, and whether the remembered newest recorder is
still recording. -/
structure PerfEngine where
  captures : Nat
  latestRecording : Bool
deriving DecidableEq

/-- Embedding of AudioEngine.startPerformanceRecording: unconditionally
taps the bus with a new recorder and remembers it. -/
def startPerformanceRecording (pe : PerfEngine) : PerfEngine :=
  { captures := pe.captures + 1, latestRecording := true }

/-- Embedding of AudioEngine.stopPerformanceRecording: stops the
remembered recorder when it is recording, otherwise does nothing. -/
def stopPerformanceRecording (pe : PerfEngine) : PerfEngine :=
  if pe.latestRecording then
    { captures := pe.captures - 1, latestRecording := false }
  else pe

/-- Script state around the performance recorder. -/
structure PerfScript where
  isPerformanceRecording : Bool
  engine : PerfEngine
deriving DecidableEq

/-- Embedding of the script's startPerformanceRecording: starts the engine
capture and raises the flag. -/
def scriptStartPerformanceRecording (s : PerfScript) : PerfScript :=
  { isPerformanceRecording := true
    engine := startPerformanceRecording s.engine }

/-- Embedding of the script's stopPerformanceRecording: a no-op unless the
flag is up; otherwise stops the engine capture and lowers the flag. -/
def scriptStopPerformanceRecording (s : PerfScript) : PerfScript :=
  if !s.isPerformanceRecording then s
  else
    { isPerformanceRecording := false
      engine := stopPerformanceRecording s.engine }

/-- Embedding of togglePerformanceRecording, the only caller of the start
path: while a capture is flagged in progress it routes to stop,
otherwise it starts. -/
def togglePerformanceRecording (s : PerfScript) : PerfScript :=
  if s.isPerformanceRecording then scriptStopPerformanceRecording s
  else scriptStartPerformanceRecording s

/-! ## Serial frame decoder: proofs -/

theorem clampJS_nonneg (v : Int) : 0 ≤ clampJS v := le_max_left 0 _

theorem clampJS_le (v : Int) : clampJS v ≤ 255 := by
  unfold clampJS
  have h : min 255 v ≤ 255 := min_le_left _ _
  omega

theorem decodeToken_mem_range (tok : List Char) :
    0 ≤ decodeToken tok ∧ decodeToken tok ≤ 255 :=
  ⟨clampJS_nonneg _, clampJS_le _⟩

/-- Claim C2: splitting an input line on commas into exactly 100 tokens
makes parseSerialData emit exactly one frame of 100 values, each in
[0, 255], with non-numeric tokens decoded to zero and numeric tokens
clamped rather than rejected; any other token count emits no frame, and
a discarded line does not stop later lines from being processed. -/
theorem parse_serial_line_contract (line : List Char) :
    ((splitOnChar ',' line).length = 100 →
      ∃ f, parseSerialData line = some f ∧ f.length = 100 ∧
        (∀ v ∈ f, 0 ≤ v ∧ v ≤ 255) ∧
        f = (splitOnChar ',' line).map decodeToken) ∧
    ((splitOnChar ',' line).length ≠ 100 → parseSerialData line = none) ∧
    (∀ tok, parseIntJS (jsTrim tok) = none → decodeToken tok = 0) ∧
    (∀ tok n, parseIntJS (jsTrim tok) = some n → decodeToken tok = clampJS n) ∧
    (∀ ls, (splitOnChar ',' (jsTrim line)).length ≠ 100 →
      processLines (line :: ls) = processLines ls) := by
  refine ⟨?_, ?_, ?_, ?_, ?_⟩
  · intro h
    refine ⟨(splitOnChar ',' line).map decodeToken, ?_, ?_, ?_, rfl⟩
    · simp [parseSerialData, h]
    · simp [h]
    · intro v hv
      rcases List.mem_map.mp hv with ⟨tok, _, rfl⟩
      exact decodeToken_mem_range tok
  · intro h
    simp [parseSerialData, h]
  · intro tok h
    simp [decodeToken, h, clampJS]
  · intro tok n h
    simp [decodeToken, h]
  · intro ls h
    by_cases he : jsTrim line = []
    · simp [processLines, List.isEmpty_iff, he]
    · simp [processLines, List.isEmpty_iff, he, parseSerialData, h]

/-- Concrete instances of the C2 contract: a three-token line emits no
frame, and a 100-token all-zero line emits one frame of 100 in-range
values. -/
theorem parse_serial_line_contract_instances :
    (splitOnChar ',' ['1', ',', '2', ',', 'x']).length ≠ 100 ∧
    parseSerialData ['1', ',', '2', ',', 'x'] = none ∧
    ((splitOnChar ',' (List.replicate 100 '0' |>.intersperse ',')).length = 100 ∧
      ∃ f, parseSerialData (List.replicate 100 '0' |>.intersperse ',') = some f ∧
        f.length = 100 ∧ (∀ v ∈ f, 0 ≤ v ∧ v ≤ 255)) := by
  refine ⟨by decide, (parse_serial_line_contract _).2.1 (by decide), by decide, ?_⟩
  obtain ⟨f, h1, h2, h3, _⟩ := (parse_serial_line_contract
    (List.replicate 100 '0' |>.intersperse ',')).1 (by decide)
  exact ⟨f, h1, h2, h3⟩

/-! ## Region aggregator and debouncer: proofs -/

/-- Claim C3: a debounce evaluation that fires acts on the instantaneous
pressed determination of the latest frame (the only frame whose timer can
still be pending), not on any stale scheduled state: for every prior
state, the fired evaluation commits and emits exactly when that latest
determination differs from the committed state, and the outcome is
independent of whatever evaluation was pending before the frame. -/
theorem debounce_fire_uses_latest_state (threshold : Int) (debounceMs : Nat)
    (r : GridRegion) (s : RegionSt) (m : List Int) (gap : Nat)
    (hfire : debounceMs ≤ gap) :
    ((decide (regionMax m r > threshold) ≠ s.committed →
        (runRegionFrames threshold debounceMs r s [(m, gap)]).2
          = [decide (regionMax m r > threshold)] ∧
        (runRegionFrames threshold debounceMs r s [(m, gap)]).1.committed
          = decide (regionMax m r > threshold)) ∧
     (decide (regionMax m r > threshold) = s.committed →
        (runRegionFrames threshold debounceMs r s [(m, gap)]).2 = [] ∧
        (runRegionFrames threshold debounceMs r s [(m, gap)]).1.committed
          = s.committed) ∧
     (∀ stale : Option Bool,
        runRegionFrames threshold debounceMs r { s with pending := stale } [(m, gap)]
          = runRegionFrames threshold debounceMs r s [(m, gap)])) := by
  cases s with
  | mk committed pending =>
    refine ⟨?_, ?_, ?_⟩
    · intro hne
      by_cases hlt : threshold < regionMax m r
      · cases committed <;>
          simp_all [runRegionFrames, scheduleDebounce, fireDebounce, hfire, if_pos hlt]
      · cases committed <;>
          simp_all [runRegionFrames, scheduleDebounce, fireDebounce, hfire, if_neg hlt]
    · intro heq
      by_cases hlt : threshold < regionMax m r
      · cases committed <;>
          simp_all [runRegionFrames, scheduleDebounce, fireDebounce, hfire, if_pos hlt]
      · cases committed <;>
          simp_all [runRegionFrames, scheduleDebounce, fireDebounce, hfire, if_neg hlt]
    · intro stale
      simp [runRegionFrames, scheduleDebounce]

/-- Concrete instance of the C3 theorem: with threshold 25 and a matrix
whose first sensor reads 100, a fire on region 0 commits ON from an idle
state, and against an already-ON committed state it emits nothing,
whatever timer was previously pending. -/
theorem debounce_fire_uses_latest_state_instance :
    (50 : Nat) ≤ 50 ∧
    (decide (regionMax (100 :: List.replicate 99 0) (GridRegion.mk 0 2 0 2) > 25)
      ≠ (false : Bool)) ∧
    (runRegionFrames 25 50 (GridRegion.mk 0 2 0 2) ⟨false, some false⟩
        [((100 :: List.replicate 99 0), 50)]).2 = [true] := by
  refine ⟨le_refl _, by decide, ?_⟩
  have h := (debounce_fire_uses_latest_state 25 50 (GridRegion.mk 0 2 0 2)
    ⟨false, some false⟩ (100 :: List.replicate 99 0) 50 (le_refl _)).1 (by decide)
  simpa using h.1

/-- Claim C4: every processed frame cancels the region's pending debounce
evaluation and schedules a fresh one carrying the frame's instantaneous
determination, leaving the committed state untouched; consequently over
any frame trace in which every gap is shorter than the debounce window —
in particular one whose region value alternates across the threshold —
no transition event is emitted and the committed state never changes. -/
theorem debounce_flicker_absorbed (threshold : Int) (debounceMs : Nat)
    (r : GridRegion) :
    (∀ (isPressed : Bool) (s : RegionSt),
        scheduleDebounce isPressed s
          = { committed := s.committed, pending := some isPressed }) ∧
    (∀ (s : RegionSt) (frames : List (List Int × Nat)),
        (∀ f ∈ frames, f.2 < debounceMs) →
        (runRegionFrames threshold debounceMs r s frames).2 = [] ∧
        (runRegionFrames threshold debounceMs r s frames).1.committed
          = s.committed) := by
  refine ⟨fun isPressed s => rfl, ?_⟩
  intro s frames
  induction frames generalizing s with
  | nil => intro _; simp [runRegionFrames]
  | cons f rest ih =>
    intro hfast
    have hgap : f.2 < debounceMs := hfast f (List.mem_cons_self f rest)
    have hrest : ∀ g ∈ rest, g.2 < debounceMs :=
      fun g hg => hfast g (List.mem_cons_of_mem f hg)
    obtain ⟨m, gap⟩ := f
    have hnot : ¬ debounceMs ≤ gap := by
      simpa using Nat.not_le_of_lt hgap
    have := ih (s := scheduleDebounce (decide (regionMax m r > threshold)) s) hrest
    simp only [runRegionFrames, hnot, if_false]
    exact ⟨by simpa [scheduleDebounce] using this.1,
           by simpa [scheduleDebounce] using this.2⟩

/-- Concrete instance of the C4 theorem: four frames alternating between
pressure 100 and 0 on region 0, each arriving 10 ms after the previous
one (well inside the 50 ms window), emit no event and leave the committed
state false. -/
theorem debounce_flicker_absorbed_instance :
    (∀ f ∈ [((100 : Int) :: List.replicate 99 0, 10),
            ((0 : Int) :: List.replicate 99 0, 10),
            ((100 : Int) :: List.replicate 99 0, 10),
            ((0 : Int) :: List.replicate 99 0, 10)], f.2 < 50) ∧
    (runRegionFrames 25 50 (GridRegion.mk 0 2 0 2) ⟨false, none⟩
        [((100 : Int) :: List.replicate 99 0, 10),
         ((0 : Int) :: List.replicate 99 0, 10),
         ((100 : Int) :: List.replicate 99 0, 10),
         ((0 : Int) :: List.replicate 99 0, 10)]).2 = [] := by
  refine ⟨by decide, ?_⟩
  exact ((debounce_flicker_absorbed 25 50 (GridRegion.mk 0 2 0 2)).2
    ⟨false, none⟩ _ (by decide)).1

/-! ## Recording-trigger state machine: proofs -/

/-- Counterexample to claim C5: switchMode sets recordingReady to true
unconditionally, so immediately after mode entry — with the mat never
observed unpressed — a pressed frame is a rising edge that starts a
recording. -/
theorem ready_flag_mode_entry_counterexample :
    (switchModeReset (initRecSt true)).recordingReady = true ∧
    (handleRecordingPressure (switchModeReset (initRecSt true)) 100).recordingState
      = .recording := by
  decide

/-- Claim C5 as amended: recordingReady starts false at construction and,
within pressure handling, is armed exactly by observing an unpressed mat;
while it is false no frame starts or stops a recording; but switching
modes unconditionally sets it true, so a press straight after mode entry
can trigger even though the mat was never observed unpressed. -/
theorem ready_flag_gates_recording (m : Bool) (s : RecSt) (p : Int) :
    (initRecSt m).recordingReady = false ∧
    ((handleRecordingPressure s p).recordingReady = true →
      s.recordingReady = true ∨ p ≤ s.pressureThreshold) ∧
    (s.recordingReady = false →
      (handleRecordingPressure s p).recordingState = s.recordingState) ∧
    (switchModeReset s).recordingReady = true := by
  refine ⟨rfl, ?_, ?_, rfl⟩
  · intro h
    by_cases hp : s.pressureThreshold < p
    · left
      by_contra hr
      simp only [Bool.not_eq_true] at hr
      simp [handleRecordingPressure, hp, hr, startRecordingOp, stopRecordingOp,
        decide_eq_true_eq] at h
    · right
      exact not_lt.mp hp
  · intro hr
    by_cases hp : s.pressureThreshold < p <;>
      simp [handleRecordingPressure, hp, hr]

/-- Concrete instance of the amended C5 theorem: from the constructor
state with a pressed frame, recordingReady stays false and no recording
starts. -/
theorem ready_flag_gates_recording_instance :
    (initRecSt true).recordingReady = false ∧
    ((initRecSt true).recordingReady = false →
      (handleRecordingPressure (initRecSt true) 100).recordingState
        = (initRecSt true).recordingState) := by
  exact ⟨(ready_flag_gates_recording true (initRecSt true) 100).1,
    fun h => (ready_flag_gates_recording true (initRecSt true) 100).2.2.1 h⟩

/-! ## Performance session recorder: proofs -/

/-- Claim C8: in every state with a master capture in progress, the
system's start operation (the toggle, the sole entry point to starting a
capture) does not begin a new concurrent capture: it routes to the stop
path and the number of in-flight captures does not grow. -/
theorem no_concurrent_master_capture (s : PerfScript)
    (h : s.isPerformanceRecording = true) :
    togglePerformanceRecording s = scriptStopPerformanceRecording s ∧
    (togglePerformanceRecording s).engine.captures ≤ s.engine.captures := by
  constructor
  · simp [togglePerformanceRecording, h]
  · simp only [togglePerformanceRecording, h, if_true,
      scriptStopPerformanceRecording, Bool.not_true]
    simp only [if_false, stopPerformanceRecording]
    by_cases hl : s.engine.latestRecording
    · simp [hl]
    · simp [hl]

/-- Concrete instance of the C8 theorem: with one capture in flight, the
toggle leaves no more captures than before. -/
theorem no_concurrent_master_capture_instance :
    (PerfScript.mk true (PerfEngine.mk 1 true)).isPerformanceRecording = true ∧
    (togglePerformanceRecording (PerfScript.mk true (PerfEngine.mk 1 true))).engine.captures
      ≤ (PerfScript.mk true (PerfEngine.mk 1 true)).engine.captures :=
  ⟨rfl, (no_concurrent_master_capture (PerfScript.mk true (PerfEngine.mk 1 true)) rfl).2⟩

/-! ## Audio routing engine: map and registry lemmas -/

theorem lookupSrc_eq_none_iff (l : List (Int × Voice)) (g : Int) :
    lookupSrc l g = none ↔ g ∉ l.map Prod.fst := by
  induction l with
  | nil => simp [lookupSrc]
  | cons p rest ih =>
    obtain ⟨k, v⟩ := p
    by_cases hk : k = g
    · subst hk
      simp [lookupSrc]
    · simp [lookupSrc, hk, ih, Ne.symm hk]

theorem lookupSrc_mem {l : List (Int × Voice)} {g : Int} {v : Voice}
    (h : lookupSrc l g = some v) : (g, v) ∈ l := by
  induction l with
  | nil => simp [lookupSrc] at h
  | cons p rest ih =>
    obtain ⟨k, w⟩ := p
    by_cases hk : k = g
    · subst hk
      simp [lookupSrc] at h
      simp [h]
    · simp [lookupSrc, hk] at h
      exact List.mem_cons_of_mem _ (ih h)

theorem setSrc_eq_append {l : List (Int × Voice)} {g : Int} (v : Voice)
    (h : g ∉ l.map Prod.fst) : setSrc l g v = l ++ [(g, v)] := by
  induction l with
  | nil => simp [setSrc]
  | cons p rest ih =>
    obtain ⟨k, w⟩ := p
    simp only [List.map_cons, List.mem_cons] at h
    push_neg at h
    simp [setSrc, Ne.symm h.1, ih h.2]

theorem eraseSrc_eq_self {l : List (Int × Voice)} {g : Int}
    (h : g ∉ l.map Prod.fst) : eraseSrc l g = l := by
  unfold eraseSrc
  rw [List.filter_eq_self]
  intro p hp
  simp only [List.mem_map] at h
  simp only [decide_eq_true_eq]
  intro hpg
  exact h ⟨p, hp, hpg⟩

theorem map_fst_eraseSrc (l : List (Int × Voice)) (g : Int) :
    (eraseSrc l g).map Prod.fst = (l.map Prod.fst).filter (fun k => k ≠ g) := by
  induction l with
  | nil => rfl
  | cons p rest ih =>
    obtain ⟨k, w⟩ := p
    by_cases hk : k = g <;>
      simp [eraseSrc, List.filter_cons, hk, ih] at ih ⊢ <;> simp [ih]

theorem not_mem_map_fst_eraseSrc (l : List (Int × Voice)) (g : Int) :
    g ∉ (eraseSrc l g).map Prod.fst := by
  rw [map_fst_eraseSrc]
  intro h
  have := List.of_mem_filter h
  simp at this

theorem mem_map_fst_eraseSrc {l : List (Int × Voice)} {g x : Int}
    (h : x ∈ (eraseSrc l g).map Prod.fst) : x ∈ l.map Prod.fst ∧ x ≠ g := by
  rw [map_fst_eraseSrc] at h
  refine ⟨List.mem_of_mem_filter h, ?_⟩
  have := List.of_mem_filter h
  simpa using this

theorem nodup_map_fst_eraseSrc {l : List (Int × Voice)} (g : Int)
    (h : (l.map Prod.fst).Nodup) : ((eraseSrc l g).map Prod.fst).Nodup := by
  rw [map_fst_eraseSrc]
  exact h.filter _

theorem lookupSrc_eraseSrc_self (l : List (Int × Voice)) (g : Int) :
    lookupSrc (eraseSrc l g) g = none :=
  (lookupSrc_eq_none_iff _ _).mpr (not_mem_map_fst_eraseSrc l g)

theorem lookupSrc_eraseSrc_ne (l : List (Int × Voice)) {g g' : Int}
    (h : g' ≠ g) : lookupSrc (eraseSrc l g) g' = lookupSrc l g' := by
  induction l with
  | nil => rfl
  | cons p rest ih =>
    obtain ⟨k, w⟩ := p
    by_cases hk : k = g
    · subst hk
      simp [eraseSrc, List.filter_cons, lookupSrc, Ne.symm h] at ih ⊢
      exact ih
    · by_cases hk' : k = g'
      · subst hk'
        simp [eraseSrc, List.filter_cons, hk, lookupSrc]
      · simp [eraseSrc, List.filter_cons, hk, lookupSrc, hk'] at ih ⊢
        exact ih

theorem lookupSrc_setSrc_self (l : List (Int × Voice)) (g : Int) (v : Voice) :
    lookupSrc (setSrc l g v) g = some v := by
  induction l with
  | nil => simp [setSrc, lookupSrc]
  | cons p rest ih =>
    obtain ⟨k, w⟩ := p
    by_cases hk : k = g <;> simp [setSrc, hk, lookupSrc, ih]

theorem lookupSrc_setSrc_ne (l : List (Int × Voice)) {g g' : Int} (v : Voice)
    (h : g' ≠ g) : lookupSrc (setSrc l g v) g' = lookupSrc l g' := by
  induction l with
  | nil => simp [setSrc, lookupSrc, Ne.symm h]
  | cons p rest ih =>
    obtain ⟨k, w⟩ := p
    by_cases hk : k = g
    · subst hk
      simp [setSrc, lookupSrc, Ne.symm h]
    · simp [setSrc, hk, lookupSrc, ih]

theorem countEff_append (l l' : List (Int × Voice)) (en : Option String) :
    countEff (l ++ l') en = countEff l en + countEff l' en := by
  simp [countEff, List.filter_append]

theorem countEff_singleton (g : Int) (v : Voice) (en : Option String) :
    countEff [(g, v)] en = if v.effectName = en then 1 else 0 := by
  by_cases h : v.effectName = en <;> simp [countEff, List.filter_cons, h]

theorem countEff_cons (k : Int) (w : Voice) (rest : List (Int × Voice))
    (en : Option String) :
    countEff ((k, w) :: rest) en
      = (if w.effectName = en then 1 else 0) + countEff rest en := by
  by_cases hp : w.effectName = en
  · simp [countEff, List.filter_cons, hp]
    omega
  · simp [countEff, List.filter_cons, hp]

theorem countEff_erase {l : List (Int × Voice)} {g : Int} {v : Voice}
    (hnd : (l.map Prod.fst).Nodup) (hl : lookupSrc l g = some v)
    (en : Option String) :
    countEff (eraseSrc l g) en + (if v.effectName = en then 1 else 0)
      = countEff l en := by
  induction l with
  | nil => simp [lookupSrc] at hl
  | cons p rest ih =>
    obtain ⟨k, w⟩ := p
    simp only [List.map_cons, List.nodup_cons] at hnd
    by_cases hk : k = g
    · subst hk
      have hwv : w = v := by simpa [lookupSrc] using hl
      subst hwv
      have he1 : eraseSrc ((k, w) :: rest) k = eraseSrc rest k := by
        simp [eraseSrc, List.filter_cons]
      have he2 : eraseSrc rest k = rest := eraseSrc_eq_self hnd.1
      rw [he1, he2, countEff_cons]
      omega
    · have hl' : lookupSrc rest g = some v := by
        simpa [lookupSrc, hk] using hl
      have hih := ih hnd.2 hl'
      have he1 : eraseSrc ((k, w) :: rest) g = (k, w) :: eraseSrc rest g := by
        simp [eraseSrc, List.filter_cons, hk]
      rw [he1, countEff_cons, countEff_cons]
      omega

theorem countEff_pos_of_mem {l : List (Int × Voice)} {g : Int} {v : Voice}
    (h : (g, v) ∈ l) {en : Option String} (he : v.effectName = en) :
    0 < countEff l en := by
  induction l with
  | nil => simp at h
  | cons p rest ih =>
    obtain ⟨k, w⟩ := p
    rw [countEff_cons]
    rcases List.mem_cons.mp h with h1 | h2
    · have hw : w.effectName = en := by
        have : v = w := congrArg Prod.snd h1
        rw [← this]
        exact he
      simp [hw]
    · have := ih h2
      omega

theorem length_le_one_of_nodup_const {l : List Int} (hnd : l.Nodup)
    (r : Int) (hall : ∀ x ∈ l, x = r) : l.length ≤ 1 := by
  match l with
  | [] => simp
  | [x] => simp
  | x :: y :: rest =>
    exfalso
    have hx : x = r := hall x (by simp)
    have hy : y = r := hall y (by simp)
    subst hx
    subst hy
    simp at hnd

theorem applyEffect_sources (e : Engine) (en : Option String) (b : Bool) :
    (applyEffect e en b).1.sources = e.sources := by
  cases en with
  | none => rfl
  | some name =>
    cases hfx : e.fx name with
    | none => simp [applyEffect, hfx]
    | some u =>
      by_cases h1 : (b && !u.active) = true
      · simp [applyEffect, hfx, h1]
      · by_cases h2 : (!b && u.active) = true <;>
          simp [applyEffect, hfx, h1, h2]

theorem applyEffect_none (e : Engine) (b : Bool) :
    applyEffect e none b = (e, false) := rfl

theorem applyEffect_fx_ne (e : Engine) (name : String) (b : Bool) {n : String}
    (h : n ≠ name) : (applyEffect e (some name) b).1.fx n = e.fx n := by
  cases hfx : e.fx name with
  | none => simp [applyEffect, hfx]
  | some u =>
    by_cases h1 : (b && !u.active) = true
    · simp [applyEffect, hfx, h1, h]
    · by_cases h2 : (!b && u.active) = true <;>
        simp [applyEffect, hfx, h1, h2, h]

theorem applyEffect_fx_isSome (e : Engine) (en : Option String) (b : Bool)
    (n : String) :
    ((applyEffect e en b).1.fx n).isSome = (e.fx n).isSome := by
  cases en with
  | none => rfl
  | some name =>
    cases hfx : e.fx name with
    | none => simp [applyEffect, hfx]
    | some u =>
      by_cases hn : n = name
      · subst hn
        by_cases h1 : (b && !u.active) = true
        · simp [applyEffect, hfx, h1]
        · by_cases h2 : (!b && u.active) = true <;>
            simp [applyEffect, hfx, h1, h2]
      · by_cases h1 : (b && !u.active) = true
        · simp [applyEffect, hfx, h1, hn]
        · by_cases h2 : (!b && u.active) = true <;>
            simp [applyEffect, hfx, h1, h2, hn]

theorem applyEffect_snd_of_some {e : Engine} {name : String} {u : EffectUnit}
    (h : e.fx name = some u) (b : Bool) :
    (applyEffect e (some name) b).2 = true := by
  by_cases h1 : (b && !u.active) = true
  · simp [applyEffect, h, h1]
  · by_cases h2 : (!b && u.active) = true <;>
      simp [applyEffect, h, h1, h2]

theorem applyEffect_snd_of_none {e : Engine} {name : String}
    (h : e.fx name = none) (b : Bool) :
    applyEffect e (some name) b = (e, false) := by
  simp [applyEffect, h]

theorem applyEffect_true_fx_self {e : Engine} {name : String} {u : EffectUnit}
    (h : e.fx name = some u) (hc : u.connected = u.active) :
    (applyEffect e (some name) true).1.fx name
      = some { active := true, connected := true, params := u.params } := by
  cases ha : u.active
  · simp [applyEffect, h, ha]
  · have hu : u = { active := true, connected := true, params := u.params } := by
      cases u with
      | mk a c p =>
        simp only at ha hc
        subst ha
        subst hc
        rfl
    simp [applyEffect, h, ha]
    exact hu

theorem applyEffect_false_fx_self {e : Engine} {name : String} {u : EffectUnit}
    (h : e.fx name = some u) (hc : u.connected = u.active) :
    (applyEffect e (some name) false).1.fx name
      = some { active := false, connected := false, params := u.params } := by
  cases ha : u.active
  · have hu : u = { active := false, connected := false, params := u.params } := by
      cases u with
      | mk a c p =>
        simp only at ha hc
        subst ha
        subst hc
        rfl
    simp [applyEffect, h, ha]
    exact hu
  · simp [applyEffect, h, ha]

/-! ## Audio routing engine: voice stop lemmas -/

theorem stop_eq_of_none {e : Engine} {g : Int}
    (hl : lookupSrc e.sources g = none) :
    stopLoopedSampleWithEffect e g = e := by
  unfold stopLoopedSampleWithEffect
  rw [hl]

theorem stop_sources_eq (e : Engine) (g : Int) :
    (stopLoopedSampleWithEffect e g).sources
      = if (lookupSrc e.sources g).isSome then eraseSrc e.sources g
        else e.sources := by
  unfold stopLoopedSampleWithEffect
  cases hl : lookupSrc e.sources g with
  | none => simp
  | some v =>
    by_cases hc : usingCount e v.effectName ≤ 1 <;>
      simp [hc, applyEffect_sources]

theorem stop_fx_isSome (e : Engine) (g : Int) (n : String) :
    ((stopLoopedSampleWithEffect e g).fx n).isSome = (e.fx n).isSome := by
  unfold stopLoopedSampleWithEffect
  cases hl : lookupSrc e.sources g with
  | none => rfl
  | some v =>
    by_cases hc : usingCount e v.effectName ≤ 1 <;>
      simp [hc, applyEffect_fx_isSome]

theorem stop_lookup_self (e : Engine) (g : Int) :
    lookupSrc (stopLoopedSampleWithEffect e g).sources g = none := by
  rw [stop_sources_eq]
  by_cases hl : (lookupSrc e.sources g).isSome
  · simp [hl, lookupSrc_eraseSrc_self]
  · simp only [hl, if_false]
    exact Option.not_isSome_iff_eq_none.mp hl

theorem stop_lookup_ne (e : Engine) {g g' : Int} (h : g' ≠ g) :
    lookupSrc (stopLoopedSampleWithEffect e g).sources g'
      = lookupSrc e.sources g' := by
  rw [stop_sources_eq]
  by_cases hl : (lookupSrc e.sources g).isSome <;>
    simp [hl, lookupSrc_eraseSrc_ne _ h]

theorem stop_mem_map_fst {e : Engine} {g x : Int}
    (h : x ∈ (stopLoopedSampleWithEffect e g).sources.map Prod.fst) :
    x ∈ e.sources.map Prod.fst ∧ x ≠ g := by
  rw [stop_sources_eq] at h
  by_cases hl : (lookupSrc e.sources g).isSome
  · rw [if_pos hl] at h
    exact mem_map_fst_eraseSrc h
  · rw [if_neg hl] at h
    refine ⟨h, ?_⟩
    intro hx
    subst hx
    exact hl (by
      cases hno : lookupSrc e.sources x with
      | none => exact absurd ((lookupSrc_eq_none_iff _ _).mp hno) (by simp [h])
      | some v => simp [hno])

theorem stop_nodup {e : Engine} (g : Int)
    (h : (e.sources.map Prod.fst).Nodup) :
    ((stopLoopedSampleWithEffect e g).sources.map Prod.fst).Nodup := by
  rw [stop_sources_eq]
  by_cases hl : (lookupSrc e.sources g).isSome <;>
    simp [hl, nodup_map_fst_eraseSrc _ h, h]

theorem wf_stop {e : Engine} (g : Int) (hwf : EngineWF e) :
    EngineWF (stopLoopedSampleWithEffect e g) := by
  obtain ⟨hnd, hdom, hinv⟩ := hwf
  cases hl : lookupSrc e.sources g with
  | none =>
    rw [stop_eq_of_none hl]
    exact ⟨hnd, hdom, hinv⟩
  | some v =>
    refine ⟨stop_nodup g hnd, ?_, ?_⟩
    · intro n
      rw [stop_fx_isSome]
      exact hdom n
    · intro n u hu
      have hcount : ∀ en, countEff (eraseSrc e.sources g) en
          + (if v.effectName = en then 1 else 0) = countEff e.sources en :=
        fun en => countEff_erase hnd hl en
      have hsrc : (stopLoopedSampleWithEffect e g).sources = eraseSrc e.sources g := by
        rw [stop_sources_eq, hl]
        simp
      have husing : usingCount (stopLoopedSampleWithEffect e g) (some n)
          = countEff (eraseSrc e.sources g) (some n) := by
        simp [usingCount, hsrc]
      by_cases hc : usingCount e v.effectName ≤ 1
      · -- the effect of the stopped voice is deactivated
        have hfx : (stopLoopedSampleWithEffect e g).fx n
            = ((applyEffect e v.effectName false).1).fx n := by
          unfold stopLoopedSampleWithEffect
          rw [hl]
          simp [hc]
        cases hve : v.effectName with
        | none =>
          rw [hve] at hfx
          rw [applyEffect_none] at hfx
          rw [hfx] at hu
          have hbase := hinv n u hu
          refine ⟨?_, hbase.2⟩
          rw [husing]
          have hcnt := hcount (some n)
          rw [hve] at hcnt
          have hsame : countEff (eraseSrc e.sources g) (some n)
              = countEff e.sources (some n) := by
            simp at hcnt
            omega
          rw [hsame]
          simpa [usingCount] using hbase.1
        | some m =>
          rw [hve] at hfx
          by_cases hnm : n = m
          · subst hnm
            cases hfm : e.fx n with
            | none =>
              rw [applyEffect_snd_of_none hfm] at hfx
              rw [hfx] at hu
              rw [hfm] at hu
              exact absurd hu (by simp)
            | some um =>
              have hum := hinv n um hfm
              rw [applyEffect_false_fx_self hfm hum.2] at hfx
              rw [hfx] at hu
              injection hu with hu2
              have hpos : 0 < countEff e.sources (some n) :=
                countEff_pos_of_mem (lookupSrc_mem hl) hve
              have hle : countEff e.sources (some n) ≤ 1 := by
                have hc' := hc
                rw [hve] at hc'
                simpa [usingCount] using hc'
              have hcnt := hcount (some n)
              rw [hve] at hcnt
              simp at hcnt
              have hzero : countEff (eraseSrc e.sources g) (some n) = 0 := by omega
              constructor
              · rw [husing, hzero, ← hu2]
                simp
              · rw [← hu2]
          · rw [applyEffect_fx_ne _ _ _ hnm] at hfx
            rw [hfx] at hu
            have hbase := hinv n u hu
            refine ⟨?_, hbase.2⟩
            rw [husing]
            have hcnt := hcount (some n)
            have hne : v.effectName ≠ some n := by
              rw [hve]
              simp [Ne.symm hnm]
            rw [if_neg hne] at hcnt
            have hsame : countEff (eraseSrc e.sources g) (some n)
                = countEff e.sources (some n) := by omega
            rw [hsame]
            simpa [usingCount] using hbase.1
      · -- other sources still use the effect: registry untouched
        have hfx : (stopLoopedSampleWithEffect e g).fx n = e.fx n := by
          unfold stopLoopedSampleWithEffect
          rw [hl]
          simp [hc]
        rw [hfx] at hu
        have hbase := hinv n u hu
        refine ⟨?_, hbase.2⟩
        rw [husing]
        have hcnt := hcount (some n)
        have hbase1 : u.active = true ↔ 0 < countEff e.sources (some n) := by
          simpa [usingCount] using hbase.1
        by_cases hve : v.effectName = some n
        · -- the stopped voice shares this effect, at least one other remains
          rw [if_pos hve] at hcnt
          have hk : 2 ≤ usingCount e v.effectName := by omega
          have hk' : 2 ≤ countEff e.sources (some n) := by
            have : usingCount e (some n) = countEff e.sources (some n) := rfl
            rw [← hve] at this ⊢
            omega
          constructor
          · intro _
            omega
          · intro _
            exact hbase1.mpr (by omega)
        · rw [if_neg hve] at hcnt
          have hsame : countEff (eraseSrc e.sources g) (some n)
              = countEff e.sources (some n) := by omega
          rw [hsame]
          exact hbase1

/-! ## Audio routing engine: voice start lemmas -/

theorem mem_map_fst_setSrc {l : List (Int × Voice)} {g x : Int} {v : Voice}
    (h : x ∈ (setSrc l g v).map Prod.fst) :
    x ∈ l.map Prod.fst ∨ x = g := by
  induction l with
  | nil =>
    simp [setSrc] at h
    exact Or.inr h
  | cons p rest ih =>
    obtain ⟨k, w⟩ := p
    by_cases hk : k = g
    · subst hk
      have hset : setSrc ((k, w) :: rest) k v = (k, v) :: rest := by
        simp [setSrc]
      rw [hset] at h
      simp only [List.map_cons, List.mem_cons] at h
      rcases h with h | h
      · exact Or.inr h
      · exact Or.inl (List.mem_cons_of_mem _ h)
    · have hset : setSrc ((k, w) :: rest) g v = (k, w) :: setSrc rest g v := by
        simp [setSrc, hk]
      rw [hset] at h
      simp only [List.map_cons, List.mem_cons] at h
      rcases h with h | h
      · exact Or.inl (by simp [h])
      · rcases ih h with h' | h'
        · exact Or.inl (List.mem_cons_of_mem _ h')
        · exact Or.inr h'

theorem nodup_map_fst_setSrc {l : List (Int × Voice)} (g : Int) (v : Voice)
    (h : (l.map Prod.fst).Nodup) : ((setSrc l g v).map Prod.fst).Nodup := by
  induction l with
  | nil => simp [setSrc]
  | cons p rest ih =>
    obtain ⟨k, w⟩ := p
    simp only [List.map_cons, List.nodup_cons] at h
    by_cases hk : k = g
    · subst hk
      have hset : setSrc ((k, w) :: rest) k v = (k, v) :: rest := by
        simp [setSrc]
      rw [hset]
      simp only [List.map_cons, List.nodup_cons]
      exact ⟨h.1, h.2⟩
    · have hset : setSrc ((k, w) :: rest) g v = (k, w) :: setSrc rest g v := by
        simp [setSrc, hk]
      rw [hset]
      simp only [List.map_cons, List.nodup_cons]
      refine ⟨?_, ih h.2⟩
      intro hkmem
      rcases mem_map_fst_setSrc hkmem with h' | h'
      · exact h.1 h'
      · exact hk h'

theorem wf_insert {e0 : Engine} {g : Int} {v : Voice}
    (hnd : (e0.sources.map Prod.fst).Nodup)
    (hdom : ∀ n, (e0.fx n).isSome = true ↔ n ∈ knownEffects)
    (hg : lookupSrc e0.sources g = none)
    (hcons : ∀ n u, e0.fx n = some u →
      (u.connected = u.active ∧
       (v.effectName = some n → u.active = true) ∧
       (v.effectName ≠ some n → (u.active = true ↔ 0 < usingCount e0 (some n))))) :
    EngineWF { e0 with sources := setSrc e0.sources g v } := by
  have hgk : g ∉ e0.sources.map Prod.fst := (lookupSrc_eq_none_iff _ _).mp hg
  have happ : setSrc e0.sources g v = e0.sources ++ [(g, v)] := setSrc_eq_append v hgk
  refine ⟨?_, ?_, ?_⟩
  · rw [happ]
    rw [List.map_append, List.nodup_append]
    refine ⟨hnd, by simp, ?_⟩
    intro a ha hag
    simp at hag
    subst hag
    exact hgk ha
  · intro n
    exact hdom n
  · intro n u hu
    have hc := hcons n u hu
    have hcount : usingCount { e0 with sources := setSrc e0.sources g v } (some n)
        = countEff e0.sources (some n)
          + (if v.effectName = some n then 1 else 0) := by
      simp [usingCount, happ, countEff_append, countEff_singleton]
    by_cases hv : v.effectName = some n
    · refine ⟨?_, hc.1⟩
      rw [hcount, if_pos hv]
      constructor
      · intro _
        omega
      · intro _
        exact hc.2.1 hv
    · refine ⟨?_, hc.1⟩
      rw [hcount, if_neg hv]
      have := hc.2.2 hv
      simp only [usingCount] at this
      simpa using this

theorem wf_start {e : Engine} (g : Int) (en : Option String) (vol : ℚ)
    (hwf : EngineWF e) :
    EngineWF ((startLoopedSampleWithEffect e g true en vol).1) := by
  have hwf0 : EngineWF (if (lookupSrc e.sources g).isSome
      then stopLoopedSampleWithEffect e g else e) := by
    by_cases hl : (lookupSrc e.sources g).isSome
    · rw [if_pos hl]
      exact wf_stop g hwf
    · rw [if_neg hl]
      exact hwf
  have hg0 : lookupSrc (if (lookupSrc e.sources g).isSome
      then stopLoopedSampleWithEffect e g else e).sources g = none := by
    by_cases hl : (lookupSrc e.sources g).isSome
    · rw [if_pos hl]
      exact stop_lookup_self e g
    · rw [if_neg hl]
      exact Option.not_isSome_iff_eq_none.mp hl
  simp only [startLoopedSampleWithEffect, Bool.not_true]
  revert hwf0 hg0
  generalize (if (lookupSrc e.sources g).isSome
      then stopLoopedSampleWithEffect e g else e) = e0
  intro hwf0 hg0
  obtain ⟨hnd, hdom, hinv⟩ := hwf0
  simp only [Bool.false_eq_true, if_false]
  cases en with
  | none =>
    exact wf_insert hnd hdom hg0 (fun n u hu =>
      ⟨(hinv n u hu).2, by simp, fun _ => (hinv n u hu).1⟩)
  | some en' =>
    simp only
    cases hfx : e0.fx en' with
    | none =>
      have happ : applyEffect e0 (some en') true = (e0, false) :=
        applyEffect_snd_of_none hfx true
      rw [happ]
      simp only [Bool.false_eq_true, if_false]
      apply wf_insert hnd hdom hg0
      intro n u hu
      refine ⟨(hinv n u hu).2, ?_, fun _ => (hinv n u hu).1⟩
      intro hveq
      simp only [Option.some.injEq] at hveq
      subst hveq
      rw [hfx] at hu
      exact absurd hu (by simp)
    | some u0 =>
      have hsnd : (applyEffect e0 (some en') true).2 = true :=
        applyEffect_snd_of_some hfx true
      rw [hsnd]
      simp only [if_true]
      have hsrc : (applyEffect e0 (some en') true).1.sources = e0.sources :=
        applyEffect_sources e0 (some en') true
      apply wf_insert (v := (⟨some en', 0.3, 0.7⟩ : Voice))
      · rw [hsrc]
        exact hnd
      · intro n
        rw [applyEffect_fx_isSome]
        exact hdom n
      · rw [hsrc]
        exact hg0
      · intro n u hu
        by_cases hn : n = en'
        · subst hn
          rw [applyEffect_true_fx_self hfx (hinv _ _ hfx).2] at hu
          injection hu with hu2
          refine ⟨?_, ?_, ?_⟩
          · rw [← hu2]
          · intro _
            rw [← hu2]
          · intro hne
            exact absurd rfl hne
        · rw [applyEffect_fx_ne _ _ _ hn] at hu
          refine ⟨(hinv n u hu).2, ?_, ?_⟩
          · intro hveq
            simp only [Option.some.injEq] at hveq
            exact absurd hveq.symm hn
          · intro _
            have := (hinv n u hu).1
            simpa [usingCount, hsrc] using this

theorem start_true_none_eq (e : Engine) (g : Int) (vol : ℚ) :
    startLoopedSampleWithEffect e g true none vol
      = ({ (if (lookupSrc e.sources g).isSome
             then stopLoopedSampleWithEffect e g else e) with
           sources := setSrc
             (if (lookupSrc e.sources g).isSome
              then stopLoopedSampleWithEffect e g else e).sources g
             ⟨none, 1.0, 0.0⟩ }, true) := rfl

theorem start_fx_isSome (e : Engine) (g : Int) (decodeOk : Bool)
    (en : Option String) (vol : ℚ) (n : String) :
    (((startLoopedSampleWithEffect e g decodeOk en vol).1).fx n).isSome
      = (e.fx n).isSome := by
  have he0 : ((if (lookupSrc e.sources g).isSome
      then stopLoopedSampleWithEffect e g else e).fx n).isSome = (e.fx n).isSome := by
    by_cases hl : (lookupSrc e.sources g).isSome
    · rw [if_pos hl]
      exact stop_fx_isSome e g n
    · rw [if_neg hl]
  simp only [startLoopedSampleWithEffect]
  cases decodeOk
  · simp only [Bool.not_false, if_true]
    cases en
    · exact he0
    · rw [applyEffect_fx_isSome]
      exact he0
  · simp only [Bool.not_true, Bool.false_eq_true, if_false]
    cases en
    · exact he0
    · simp only
      rw [applyEffect_fx_isSome]
      exact he0

theorem start_lookup_ne (e : Engine) (g : Int) (decodeOk : Bool)
    (en : Option String) (vol : ℚ) {g' : Int} (h : g' ≠ g) :
    lookupSrc ((startLoopedSampleWithEffect e g decodeOk en vol).1).sources g'
      = lookupSrc e.sources g' := by
  have he0 : lookupSrc (if (lookupSrc e.sources g).isSome
      then stopLoopedSampleWithEffect e g else e).sources g'
      = lookupSrc e.sources g' := by
    by_cases hl : (lookupSrc e.sources g).isSome
    · rw [if_pos hl]
      exact stop_lookup_ne e h
    · rw [if_neg hl]
  simp only [startLoopedSampleWithEffect]
  cases decodeOk
  · simp only [Bool.not_false, if_true]
    cases en
    · exact he0
    · rw [applyEffect_sources]
      exact he0
  · simp only [Bool.not_true, Bool.false_eq_true, if_false]
    cases en
    · rw [lookupSrc_setSrc_ne _ _ h]
      exact he0
    · simp only
      rw [lookupSrc_setSrc_ne _ _ h, applyEffect_sources]
      exact he0

theorem start_lookup_self_none (e : Engine) (g : Int) (vol : ℚ) :
    lookupSrc ((startLoopedSampleWithEffect e g true none vol).1).sources g
      = some ⟨none, 1.0, 0.0⟩ := by
  rw [start_true_none_eq]
  exact lookupSrc_setSrc_self _ _ _

theorem start_lookup_self_some (e : Engine) (g : Int) (vol : ℚ) {n : String}
    (hfx : (e.fx n).isSome = true) :
    lookupSrc ((startLoopedSampleWithEffect e g true (some n) vol).1).sources g
      = some ⟨some n, 0.3, 0.7⟩ := by
  have he0 : ((if (lookupSrc e.sources g).isSome
      then stopLoopedSampleWithEffect e g else e).fx n).isSome = true := by
    by_cases hl : (lookupSrc e.sources g).isSome
    · rw [if_pos hl, stop_fx_isSome]
      exact hfx
    · rw [if_neg hl]
      exact hfx
  obtain ⟨u, hu⟩ := Option.isSome_iff_exists.mp he0
  simp only [startLoopedSampleWithEffect, Bool.not_true, Bool.false_eq_true, if_false]
  rw [applyEffect_snd_of_some hu true]
  simp only [if_true]
  exact lookupSrc_setSrc_self _ _ _

theorem start_mem_map_fst {e : Engine} {g : Int} {decodeOk : Bool}
    {en : Option String} {vol : ℚ} {x : Int}
    (h : x ∈ ((startLoopedSampleWithEffect e g decodeOk en vol).1).sources.map Prod.fst) :
    x ∈ e.sources.map Prod.fst ∨ x = g := by
  have he0 : ∀ y, y ∈ (if (lookupSrc e.sources g).isSome
      then stopLoopedSampleWithEffect e g else e).sources.map Prod.fst →
      y ∈ e.sources.map Prod.fst := by
    intro y hy
    by_cases hl : (lookupSrc e.sources g).isSome
    · rw [if_pos hl] at hy
      exact (stop_mem_map_fst hy).1
    · rw [if_neg hl] at hy
      exact hy
  simp only [startLoopedSampleWithEffect] at h
  cases decodeOk
  · simp only [Bool.not_false, if_true] at h
    cases en
    · exact Or.inl (he0 x h)
    · rw [applyEffect_sources] at h
      exact Or.inl (he0 x h)
  · simp only [Bool.not_true, Bool.false_eq_true, if_false] at h
    cases en
    · rcases mem_map_fst_setSrc h with h' | h'
      · exact Or.inl (he0 x h')
      · exact Or.inr h'
    · simp only at h
      rcases mem_map_fst_setSrc h with h' | h'
      · rw [applyEffect_sources] at h'
        exact Or.inl (he0 x h')
      · exact Or.inr h'

/-! ## Audio routing engine: operation sequence lemmas -/

theorem wf_applyEngOp {e : Engine} (op : EngOp) (hwf : EngineWF e) :
    EngineWF (applyEngOp e op) := by
  cases op with
  | start g en => exact wf_start g en 1 hwf
  | stop g => exact wf_stop g hwf

theorem wf_runOps (ops : List EngOp) {e : Engine} (hwf : EngineWF e) :
    EngineWF (runOps e ops) := by
  induction ops generalizing e with
  | nil => exact hwf
  | cons op rest ih => exact ih (wf_applyEngOp op hwf)

theorem wf_initialEngine : EngineWF initialEngine := by
  refine ⟨List.nodup_nil, ?_, ?_⟩
  · intro n
    by_cases hn : n ∈ knownEffects <;> simp [initialEngine, hn]
  · intro n u hu
    by_cases hn : n ∈ knownEffects
    · simp only [initialEngine, if_pos hn, Option.some.injEq] at hu
      constructor
      · rw [← hu]
        simp [usingCount, countEff, initialEngine]
      · rw [← hu]
    · simp [initialEngine, hn] at hu

theorem applyEngOp_fx_isSome (e : Engine) (op : EngOp) (n : String) :
    ((applyEngOp e op).fx n).isSome = (e.fx n).isSome := by
  cases op with
  | start g en => exact start_fx_isSome e g true en 1 n
  | stop g => exact stop_fx_isSome e g n

theorem runOps_fx_isSome (ops : List EngOp) (e : Engine) (n : String) :
    ((runOps e ops).fx n).isSome = (e.fx n).isSome := by
  induction ops generalizing e with
  | nil => rfl
  | cons op rest ih =>
    calc ((runOps e (op :: rest)).fx n).isSome
        = ((runOps (applyEngOp e op) rest).fx n).isSome := rfl
      _ = ((applyEngOp e op).fx n).isSome := ih (applyEngOp e op)
      _ = (e.fx n).isSome := applyEngOp_fx_isSome e op n

theorem applyEngOp_lookup_ne {e : Engine} {op : EngOp} {a : Int}
    (h : op.key ≠ a) :
    lookupSrc (applyEngOp e op).sources a = lookupSrc e.sources a := by
  cases op with
  | start g en =>
    exact start_lookup_ne e g true en 1 (Ne.symm h)
  | stop g =>
    exact stop_lookup_ne e (Ne.symm h)

theorem runOps_lookup_ne {ops : List EngOp} {a : Int}
    (h : ∀ op ∈ ops, op.key ≠ a) (e : Engine) :
    lookupSrc (runOps e ops).sources a = lookupSrc e.sources a := by
  induction ops generalizing e with
  | nil => rfl
  | cons op rest ih =>
    have h1 : op.key ≠ a := h op (List.mem_cons_self _ _)
    have h2 : ∀ o ∈ rest, o.key ≠ a := fun o ho => h o (List.mem_cons_of_mem _ ho)
    simp only [runOps, List.foldl_cons]
    rw [show List.foldl applyEngOp (applyEngOp e op) rest
        = runOps (applyEngOp e op) rest from rfl]
    rw [ih h2]
    exact applyEngOp_lookup_ne h1

theorem runStops_mem {stops : List Int} {e : Engine} {x : Int}
    (h : x ∈ (runOps e (stops.map EngOp.stop)).sources.map Prod.fst) :
    x ∈ e.sources.map Prod.fst ∧ x ∉ stops := by
  induction stops generalizing e with
  | nil => simpa [runOps] using h
  | cons gg rest ih =>
    simp only [List.map_cons, runOps, List.foldl_cons] at h
    have := ih (e := applyEngOp e (EngOp.stop gg)) h
    have hstop := stop_mem_map_fst (e := e) (g := gg) this.1
    refine ⟨hstop.1, ?_⟩
    simp only [List.mem_cons]
    push_neg
    exact ⟨hstop.2, this.2⟩

theorem runStarts_mem {gs : List Int} {en : Option String} {e : Engine} {x : Int}
    (h : x ∈ (runOps e (gs.map (fun g => EngOp.start g en))).sources.map Prod.fst) :
    x ∈ e.sources.map Prod.fst ∨ x ∈ gs := by
  induction gs generalizing e with
  | nil =>
    simp only [List.map_nil, runOps, List.foldl_nil] at h
    exact Or.inl h
  | cons gg rest ih =>
    simp only [List.map_cons, runOps, List.foldl_cons] at h
    rcases ih (e := applyEngOp e (EngOp.start gg en)) h with h' | h'
    · rcases start_mem_map_fst h' with h'' | h''
      · exact Or.inl h''
      · exact Or.inr (by simp [h''])
    · exact Or.inr (List.mem_cons_of_mem _ h')

theorem runStarts_lookup {gs : List Int} (hnd : gs.Nodup) (en' : String)
    {e : Engine} (hfx : (e.fx en').isSome = true) {r : Int} (hr : r ∈ gs) :
    lookupSrc (runOps e (gs.map (fun g => EngOp.start g (some en')))).sources r
      = some ⟨some en', 0.3, 0.7⟩ := by
  induction gs generalizing e with
  | nil => simp at hr
  | cons gg rest ih =>
    simp only [List.map_cons, runOps, List.foldl_cons]
    simp only [List.nodup_cons] at hnd
    rcases List.mem_cons.mp hr with hreq | hrrest
    · subst hreq
      have hlook : lookupSrc (applyEngOp e (EngOp.start r (some en'))).sources r
          = some ⟨some en', 0.3, 0.7⟩ :=
        start_lookup_self_some e r 1 hfx
      have hkeys : ∀ op ∈ rest.map (fun g => EngOp.start g (some en')),
          op.key ≠ r := by
        intro op hop
        rcases List.mem_map.mp hop with ⟨gg', hgg', rfl⟩
        simp only [EngOp.key]
        intro hcon
        subst hcon
        exact hnd.1 hgg'
      rw [show List.foldl applyEngOp (applyEngOp e (EngOp.start r (some en')))
          (rest.map (fun g => EngOp.start g (some en')))
          = runOps (applyEngOp e (EngOp.start r (some en')))
              (rest.map (fun g => EngOp.start g (some en'))) from rfl]
      rw [runOps_lookup_ne hkeys]
      exact hlook
    · have hfx' : ((applyEngOp e (EngOp.start gg (some en'))).fx en').isSome = true := by
        rw [applyEngOp_fx_isSome]
        exact hfx
      exact ih hnd.2 hfx' hrrest

theorem sources_singleton {l : List (Int × Voice)} {r : Int} {v : Voice}
    (hnd : (l.map Prod.fst).Nodup) (hall : ∀ x ∈ l.map Prod.fst, x = r)
    (hlk : lookupSrc l r = some v) : l = [(r, v)] := by
  match l with
  | [] => simp [lookupSrc] at hlk
  | (k, w) :: rest =>
    have hk : k = r := hall k (by simp)
    subst hk
    have hwv : w = v := by simpa [lookupSrc] using hlk
    subst hwv
    have hrest : rest = [] := by
      cases rest with
      | nil => rfl
      | cons q qs =>
        exfalso
        have hq : q.1 = k := hall q.1 (by simp)
        simp only [List.map_cons, List.nodup_cons] at hnd
        exact hnd.1 (by simp [← hq])
    rw [hrest]

/-- Claim C1: along every sequence of successful voice starts and stops
from the initial engine, each registered effect's activation flag equals
(number of registered voices referencing it is positive) and its bus
connection equals the flag; and in the N-distinct-regions scenario —
all regions started on one shared named effect, then all but one
stopped — the effect is still active, and stopping the last remaining
region deactivates it. -/
theorem effect_refcount_invariant (ops : List EngOp)
    (regions stops : List Int) (r : Int) (en : String)
    (hen : en ∈ knownEffects) (hnd : regions.Nodup)
    (hr : r ∈ regions) (hrs : r ∉ stops)
    (hcover : ∀ x ∈ regions, x = r ∨ x ∈ stops) :
    (∀ n u, (runOps initialEngine ops).fx n = some u →
       ((u.active = true ↔ 0 < usingCount (runOps initialEngine ops) (some n)) ∧
        u.connected = u.active)) ∧
    (isEffectActive
        (runOps initialEngine
          (regions.map (fun g => EngOp.start g (some en)) ++ stops.map EngOp.stop))
        en = true ∧
     isEffectActive
        (stopLoopedSampleWithEffect
          (runOps initialEngine
            (regions.map (fun g => EngOp.start g (some en)) ++ stops.map EngOp.stop))
          r) en = false) := by
  constructor
  · exact (wf_runOps ops wf_initialEngine).2.2
  · have hfx0 : (initialEngine.fx en).isSome = true :=
      (wf_initialEngine.2.1 en).mpr hen
    have hsplit : runOps initialEngine
        (regions.map (fun g => EngOp.start g (some en)) ++ stops.map EngOp.stop)
        = runOps (runOps initialEngine
            (regions.map (fun g => EngOp.start g (some en)))) (stops.map EngOp.stop) := by
      simp only [runOps, List.foldl_append]
    rw [hsplit]
    have hwf2 : EngineWF (runOps (runOps initialEngine
        (regions.map (fun g => EngOp.start g (some en)))) (stops.map EngOp.stop)) :=
      wf_runOps _ (wf_runOps _ wf_initialEngine)
    have hlook1 : lookupSrc (runOps initialEngine
        (regions.map (fun g => EngOp.start g (some en)))).sources r
        = some ⟨some en, 0.3, 0.7⟩ :=
      runStarts_lookup hnd en hfx0 hr
    have hkeysstop : ∀ op ∈ stops.map EngOp.stop, op.key ≠ r := by
      intro op hop
      rcases List.mem_map.mp hop with ⟨gg, hgg, rfl⟩
      simp only [EngOp.key]
      intro hcon
      subst hcon
      exact hrs hgg
    have hlook2 : lookupSrc (runOps (runOps initialEngine
        (regions.map (fun g => EngOp.start g (some en))))
          (stops.map EngOp.stop)).sources r
        = some ⟨some en, 0.3, 0.7⟩ := by
      rw [runOps_lookup_ne hkeysstop]
      exact hlook1
    have hall2 : ∀ x ∈ (runOps (runOps initialEngine
        (regions.map (fun g => EngOp.start g (some en))))
          (stops.map EngOp.stop)).sources.map Prod.fst, x = r := by
      intro x hx
      have h1 := runStops_mem hx
      have h2 := @runStarts_mem regions (some en) initialEngine x h1.1
      rcases h2 with h2 | h2
      · simp [initialEngine] at h2
      · rcases hcover x h2 with h3 | h3
        · exact h3
        · exact absurd h3 h1.2
    have hsingle := sources_singleton hwf2.1 hall2 hlook2
    have hcount2 : usingCount (runOps (runOps initialEngine
        (regions.map (fun g => EngOp.start g (some en))))
          (stops.map EngOp.stop)) (some en) = 1 := by
      rw [usingCount, hsingle, countEff_cons]
      simp [countEff]
    have hfx2 : ((runOps (runOps initialEngine
        (regions.map (fun g => EngOp.start g (some en))))
          (stops.map EngOp.stop)).fx en).isSome = true := by
      rw [runOps_fx_isSome, runOps_fx_isSome]
      exact hfx0
    obtain ⟨u2, hu2⟩ := Option.isSome_iff_exists.mp hfx2
    have hwfu2 := hwf2.2.2 en u2 hu2
    have hact : u2.active = true := hwfu2.1.mpr (by rw [hcount2]; norm_num)
    constructor
    · simp [isEffectActive, hu2, hact]
    · have hcond : usingCount (runOps (runOps initialEngine
          (regions.map (fun g => EngOp.start g (some en))))
            (stops.map EngOp.stop)) (some en) ≤ 1 := le_of_eq hcount2
      have hfxstop : (stopLoopedSampleWithEffect (runOps (runOps initialEngine
          (regions.map (fun g => EngOp.start g (some en))))
            (stops.map EngOp.stop)) r).fx en
          = some { active := false, connected := false, params := u2.params } := by
        unfold stopLoopedSampleWithEffect
        rw [hlook2]
        simp only [hcond, if_true]
        exact applyEffect_false_fx_self hu2 hwfu2.2
      simp [isEffectActive, hfxstop]

/-- Concrete instance of the C1 theorem: voices on regions 0 and 1 both
bound to ringmod, region 0 stopped — ringmod stays active; stopping
region 1 as well deactivates it. -/
theorem effect_refcount_invariant_witness :
    ("ringmod" ∈ knownEffects ∧ ([0, 1] : List Int).Nodup ∧
      (1 : Int) ∈ ([0, 1] : List Int) ∧ (1 : Int) ∉ ([0] : List Int) ∧
      ∀ x ∈ ([0, 1] : List Int), x = 1 ∨ x ∈ ([0] : List Int)) ∧
    (isEffectActive
        (runOps initialEngine
          (([0, 1] : List Int).map (fun g => EngOp.start g (some "ringmod"))
            ++ ([0] : List Int).map EngOp.stop)) "ringmod" = true ∧
     isEffectActive
        (stopLoopedSampleWithEffect
          (runOps initialEngine
            (([0, 1] : List Int).map (fun g => EngOp.start g (some "ringmod"))
              ++ ([0] : List Int).map EngOp.stop)) 1) "ringmod" = false) := by
  refine ⟨⟨by decide, by decide, by decide, by decide, by decide⟩, ?_⟩
  exact (effect_refcount_invariant [] [0, 1] [0] 1 "ringmod"
    (by decide) (by decide) (by decide) (by decide) (by decide)).2

theorem start_nodup {e : Engine} (g : Int) (en : Option String) (vol : ℚ)
    (h : (e.sources.map Prod.fst).Nodup) :
    (((startLoopedSampleWithEffect e g true en vol).1).sources.map Prod.fst).Nodup := by
  have he0 : ((if (lookupSrc e.sources g).isSome
      then stopLoopedSampleWithEffect e g else e).sources.map Prod.fst).Nodup := by
    by_cases hl : (lookupSrc e.sources g).isSome
    · rw [if_pos hl]
      exact stop_nodup g h
    · rw [if_neg hl]
      exact h
  simp only [startLoopedSampleWithEffect, Bool.not_true, Bool.false_eq_true, if_false]
  cases en
  · exact nodup_map_fst_setSrc _ _ he0
  · simp only
    apply nodup_map_fst_setSrc
    rw [applyEffect_sources]
    exact he0

/-- Claim C6: a start on a region holding a live voice first tears that
voice down (starting from the torn-down engine gives the same result), a
start never duplicates a region key, a voice started with a null effect
name carries dry gain 1.0 and wet gain 0.0, and a voice whose named
effect activated successfully carries dry gain 0.3 and wet gain 0.7. -/
theorem voice_start_contract (e : Engine) (g : Int) (en : Option String) (vol : ℚ) :
    ((lookupSrc e.sources g).isSome = true →
      startLoopedSampleWithEffect e g true en vol
        = startLoopedSampleWithEffect (stopLoopedSampleWithEffect e g) g true en vol) ∧
    ((e.sources.map Prod.fst).Nodup →
      (((startLoopedSampleWithEffect e g true en vol).1).sources.map Prod.fst).Nodup) ∧
    (en = none →
      lookupSrc ((startLoopedSampleWithEffect e g true en vol).1).sources g
        = some ⟨none, 1.0, 0.0⟩) ∧
    (∀ n, en = some n → (e.fx n).isSome = true →
      lookupSrc ((startLoopedSampleWithEffect e g true en vol).1).sources g
        = some ⟨some n, 0.3, 0.7⟩) := by
  refine ⟨?_, ?_, ?_, ?_⟩
  · intro h
    have h2 : (lookupSrc (stopLoopedSampleWithEffect e g).sources g).isSome = false := by
      rw [stop_lookup_self]
      rfl
    simp only [startLoopedSampleWithEffect, h, if_true, h2, Bool.false_eq_true, if_false]
  · exact start_nodup g en vol
  · intro h
    subst h
    exact start_lookup_self_none e g vol
  · intro n h hfx
    subst h
    exact start_lookup_self_some e g vol hfx

/-- Concrete instance of the C6 theorem: on the engine with a voice
already playing on region 0, restarting region 0 equals starting after
the teardown; dry-only and ringmod voices carry the 100/0 and 30/70
splits. -/
theorem voice_start_contract_witness :
    ((lookupSrc (startLoopedSampleWithEffect initialEngine 0 true none 1).1.sources 0).isSome
        = true ∧
      startLoopedSampleWithEffect
          (startLoopedSampleWithEffect initialEngine 0 true none 1).1 0 true none 1
        = startLoopedSampleWithEffect
            (stopLoopedSampleWithEffect
              (startLoopedSampleWithEffect initialEngine 0 true none 1).1 0)
            0 true none 1) ∧
    lookupSrc ((startLoopedSampleWithEffect initialEngine 0 true none 1).1).sources 0
      = some ⟨none, 1.0, 0.0⟩ ∧
    ((initialEngine.fx "ringmod").isSome = true ∧
      lookupSrc ((startLoopedSampleWithEffect initialEngine 0 true
          (some "ringmod") 1).1).sources 0
        = some ⟨some "ringmod", 0.3, 0.7⟩) := by
  refine ⟨⟨by decide, ?_⟩, ?_, by decide, ?_⟩
  · exact (voice_start_contract
      (startLoopedSampleWithEffect initialEngine 0 true none 1).1 0 none 1).1 (by decide)
  · exact (voice_start_contract initialEngine 0 none 1).2.2.1 rfl
  · exact (voice_start_contract initialEngine 0 (some "ringmod") 1).2.2.2
      "ringmod" rfl (by decide)

/-- Claim C7 at the failing input: with a live ringmod voice on region 0,
a start on region 1 whose decode fails returns failure but its catch
block deactivates ringmod even though region 0 still references it,
leaving the flag false while the reference count is 1. -/
theorem failed_start_disconnects_shared_effect :
    (startLoopedSampleWithEffect
        (startLoopedSampleWithEffect initialEngine 0 true (some "ringmod") 1).1
        1 false (some "ringmod") 1).2 = false ∧
    isEffectActive
        (startLoopedSampleWithEffect initialEngine 0 true (some "ringmod") 1).1
        "ringmod" = true ∧
    usingCount
        (startLoopedSampleWithEffect
          (startLoopedSampleWithEffect initialEngine 0 true (some "ringmod") 1).1
          1 false (some "ringmod") 1).1
        (some "ringmod") = 1 ∧
    isEffectActive
        (startLoopedSampleWithEffect
          (startLoopedSampleWithEffect initialEngine 0 true (some "ringmod") 1).1
          1 false (some "ringmod") 1).1
        "ringmod" = false := by
  refine ⟨rfl, ?_, rfl, ?_⟩ <;> decide

theorem getParam_none_setParam {l : List (String × ℚ)} {pid : String}
    (h : getParam l pid = none) (v : ℚ) : setParam l pid v = l := by
  induction l with
  | nil => rfl
  | cons p rest ih =>
    obtain ⟨k, x⟩ := p
    by_cases hk : k = pid
    · subst hk
      simp [getParam] at h
    · simp only [getParam, if_neg hk] at h
      simp [setParam, hk, ih h]

theorem getParam_setParam_self {l : List (String × ℚ)} {pid : String} {q : ℚ}
    (h : getParam l pid = some q) (v : ℚ) :
    getParam (setParam l pid v) pid = some v := by
  induction l with
  | nil => simp [getParam] at h
  | cons p rest ih =>
    obtain ⟨k, x⟩ := p
    by_cases hk : k = pid
    · subst hk
      simp [setParam, getParam]
    · simp only [getParam, if_neg hk] at h
      simp [setParam, hk, getParam, ih h]

/-- Counterexample to claim C9: the setter reports success (true, not
failure) for a known effect with an unknown parameter id, and an
out-of-range value is written verbatim rather than rejected. -/
theorem effect_parameter_rejection_counterexample :
    (setEffectParameter initialEngine "ringmod" "nosuchparam" 5).2 = true ∧
    (setEffectParameter initialEngine "ringmod" "frequency" (-100)).2 = true ∧
    getEffectParameter
        (setEffectParameter initialEngine "ringmod" "frequency" (-100)).1
        "ringmod" "frequency" = -100 :=
  ⟨rfl, rfl, rfl⟩

/-- Claim C9 as amended: an unknown effect name is rejected — the setter
returns false and changes nothing, the getter returns 0; for a known
effect an unrecognised parameter id touches no node and the getter
returns 0, but the setter still returns true; a recognised parameter id
is read back as stored and written without any range validation; neither
operation throws. -/
theorem effect_parameter_access (e : Engine) (effectName paramId : String) (v : ℚ) :
    (e.fx effectName = none →
      setEffectParameter e effectName paramId v = (e, false) ∧
      getEffectParameter e effectName paramId = 0) ∧
    (∀ u, e.fx effectName = some u →
      (setEffectParameter e effectName paramId v).2 = true ∧
      (getParam u.params paramId = none →
        getEffectParameter e effectName paramId = 0 ∧
        ∀ n', (setEffectParameter e effectName paramId v).1.fx n' = e.fx n') ∧
      (∀ q, getParam u.params paramId = some q →
        getEffectParameter e effectName paramId = q ∧
        (setEffectParameter e effectName paramId v).1.fx effectName
          = some { u with params := setParam u.params paramId v } ∧
        getParam (setParam u.params paramId v) paramId = some v)) := by
  refine ⟨?_, ?_⟩
  · intro h
    exact ⟨by simp [setEffectParameter, h], by simp [getEffectParameter, h]⟩
  · intro u hu
    refine ⟨by simp [setEffectParameter, hu], ?_, ?_⟩
    · intro hget
      constructor
      · simp [getEffectParameter, hu, hget]
      · intro n'
        simp only [setEffectParameter, hu]
        by_cases hn : n' = effectName
        · subst hn
          simp [getParam_none_setParam hget, hu]
        · simp [hn]
    · intro q hget
      refine ⟨by simp [getEffectParameter, hu, hget], ?_,
        getParam_setParam_self hget v⟩
      simp [setEffectParameter, hu]

/-- Concrete instance of the amended C9 theorem: an unknown effect is
rejected by the setter and defaulted by the getter; on ringmod an
unknown parameter id changes nothing yet reports success, and the
frequency parameter reads back its default. -/
theorem effect_parameter_access_witness :
    (initialEngine.fx "nosuch" = none ∧
      setEffectParameter initialEngine "nosuch" "frequency" 5
        = (initialEngine, false) ∧
      getEffectParameter initialEngine "nosuch" "frequency" = 0) ∧
    ((setEffectParameter initialEngine "ringmod" "zzz" 5).2 = true ∧
      getEffectParameter initialEngine "ringmod" "zzz" = 0 ∧
      getEffectParameter initialEngine "ringmod" "frequency" = 30) := by
  have h1 := (effect_parameter_access initialEngine "nosuch" "frequency" 5).1 rfl
  have h2 := (effect_parameter_access initialEngine "ringmod" "zzz" 5).2
    { active := false, connected := false, params := defaultParams "ringmod" } rfl
  refine ⟨⟨rfl, h1.1, h1.2⟩, ⟨h2.1, (h2.2.1 rfl).1, ?_⟩⟩
  have h3 := (effect_parameter_access initialEngine "ringmod" "frequency" 5).2
    { active := false, connected := false, params := defaultParams "ringmod" } rfl
  exact (h3.2.2 30 rfl).1

/-- Claim C10: applyEffect is idempotent — activating an already-active
effect or deactivating an already-inactive one changes nothing and still
reports success, while an unknown effect name reports failure and
changes nothing. -/
theorem applyEffect_idempotent (e : Engine) (effectName : String) :
    (∀ u, e.fx effectName = some u → u.active = true →
        applyEffect e (some effectName) true = (e, true)) ∧
    (∀ u, e.fx effectName = some u → u.active = false →
        applyEffect e (some effectName) false = (e, true)) ∧
    (e.fx effectName = none →
      ∀ b, applyEffect e (some effectName) b = (e, false)) := by
  refine ⟨?_, ?_, ?_⟩
  · intro u hu ha
    simp [applyEffect, hu, ha]
  · intro u hu ha
    simp [applyEffect, hu, ha]
  · intro h b
    exact applyEffect_snd_of_none h b

/-- Concrete instance of the C10 theorem: deactivating inactive ringmod
changes nothing, re-activating active ringmod changes nothing, and an
unknown name fails without change. -/
theorem applyEffect_idempotent_witness :
    (initialEngine.fx "ringmod"
        = some { active := false, connected := false,
                 params := defaultParams "ringmod" } ∧
      applyEffect initialEngine (some "ringmod") false = (initialEngine, true)) ∧
    (initialEngine.fx "zzz" = none ∧
      applyEffect initialEngine (some "zzz") true = (initialEngine, false)) ∧
    ((applyEffect initialEngine (some "ringmod") true).1.fx "ringmod"
        = some { active := true, connected := true,
                 params := defaultParams "ringmod" } ∧
      applyEffect (applyEffect initialEngine (some "ringmod") true).1
          (some "ringmod") true
        = ((applyEffect initialEngine (some "ringmod") true).1, true)) := by
  refine ⟨⟨rfl, ?_⟩, ⟨rfl, ?_⟩, ⟨?_, ?_⟩⟩
  · exact (applyEffect_idempotent initialEngine "ringmod").2.1
      { active := false, connected := false, params := defaultParams "ringmod" }
      rfl rfl
  · exact (applyEffect_idempotent initialEngine "zzz").2.2 rfl true
  · rfl
  · exact (applyEffect_idempotent
      (applyEffect initialEngine (some "ringmod") true).1 "ringmod").1
      { active := true, connected := true, params := defaultParams "ringmod" }
      (by rfl) rfl

end Zemini
